import Mathlib

/-!
Verification of the overlay-composition core of the iced GUI toolkit fork:
the nested-overlay composer (`src/native/src/overlay/nested.rs`) and the
dropdown menu (`src/native/src/overlay/menu.rs`).

The `f32` geometry is embedded with exact rationals; the Rust `as usize`
cast (which truncates toward zero and saturates negative values at zero)
is modelled by `ratToUsize`.  Side effects (`Shell::publish`, invoking a
boxed surface's handler, `Renderer::with_layer`) are modelled by returning
the list of performed calls alongside the pure result.
-/

namespace Iced

/-- Embeds `iced_core::Point` (its `f32` coordinates as rationals). -/
structure Point where
  x : ℚ
  y : ℚ
  deriving DecidableEq

/-- Embeds `iced_core::Size`. -/
structure Size where
  width : ℚ
  height : ℚ
  deriving DecidableEq

/-- Embeds `iced_core::Rectangle`. -/
structure Rectangle where
  x : ℚ
  y : ℚ
  width : ℚ
  height : ℚ
  deriving DecidableEq

/-- Modelled from the spec: the external layout-geometry capability
(spec sections 2 and 6; `Rectangle::contains` lives outside `src/`).
A point is inside a rectangle when it lies within the rectangle's
horizontal and vertical extent. -/
def Rectangle.contains (r : Rectangle) (p : Point) : Bool :=
  decide (r.x ≤ p.x) && decide (p.x < r.x + r.width) &&
    decide (r.y ≤ p.y) && decide (p.y < r.y + r.height)

/-- Saturating `f32 as usize` conversion: truncation toward zero, with
negative inputs clamping to `0`. -/
def ratToUsize (q : ℚ) : ℕ :=
  if q < 0 then 0 else (⌊q⌋).toNat

/-- Saturating `usize` conversion of `q.ceil()`. -/
def ratCeilToUsize (q : ℚ) : ℕ :=
  if q < 0 then 0 else (⌈q⌉).toNat

/-- Embeds `event::Status` (an event is either ignored or captured). -/
inductive EventStatus where
  | Ignored
  | Captured
  deriving DecidableEq

/-- Embeds `menu::Status`: the tri-state open/closing/closed machine. -/
inductive MenuStatus where
  | Closed
  | Closing
  | Open
  deriving DecidableEq

/-- Embeds `iced_core::Padding`. -/
structure Padding where
  top : ℚ
  right : ℚ
  bottom : ℚ
  left : ℚ
  deriving DecidableEq

/-- Embeds `Padding::vertical()`. -/
def Padding.vertical (p : Padding) : ℚ :=
  p.top + p.bottom

/-- Embeds the `List` widget of `menu.rs` (named `MenuList` here because
`List` is taken by Lean's core library).  The borrowed option slice and
the selection callback are carried as fields; the shared mutable
references `hovered_option` and `status` are threaded explicitly through
`ListState`.  Presentation-only fields (`font`, `style`) are omitted
since no modelled operation depends on them. -/
structure MenuList (T M : Type) where
  options : List T
  onSelected : T → M
  padding : Padding
  textSize : Option ℚ

/-- State reached through the `&mut` references held by the `List`:
the shared hovered-option slot and the menu status. -/
structure ListState where
  hovered : Option ℕ
  status : MenuStatus
  deriving DecidableEq

/-- Input events relevant to `List::on_event`: a left mouse press, a
cursor move, a touch `FingerPressed`, and anything else (the catch-all
`_ => {}` arm). -/
inductive MenuEvent where
  | leftPressed
  | cursorMoved
  | fingerPressed
  | other
  deriving DecidableEq

/-- Row height used throughout `menu.rs`:
`self.text_size.unwrap_or_else(|| renderer.default_size()) + self.padding.vertical()`. -/
def MenuList.rowHeight {T M : Type} (lp : MenuList T M) (defaultSize : ℚ) : ℚ :=
  lp.textSize.getD defaultSize + lp.padding.vertical

/-- Hovered index recomputed on pointer moves and touch presses:
`((cursor_position.y - bounds.y) / (text_size + self.padding.vertical())) as usize`. -/
def MenuList.hoverIndex {T M : Type} (lp : MenuList T M) (defaultSize : ℚ)
    (bounds : Rectangle) (cursor : Point) : ℕ :=
  ratToUsize ((cursor.y - bounds.y) / lp.rowHeight defaultSize)

/-- Embeds `List::on_event` (menu.rs, lines 396-466).  The returned triple
is the updated referenced state, the messages published to the `Shell`,
and the returned `event::Status`. -/
def MenuList.onEvent {T M : Type} (lp : MenuList T M) (defaultSize : ℚ)
    (st : ListState) (ev : MenuEvent) (bounds : Rectangle) (cursor : Point) :
    ListState × List M × EventStatus :=
  match ev with
  | .leftPressed =>
    if bounds.contains cursor then
      match st.hovered with
      | some index =>
        match lp.options[index]? with
        | some option =>
          ({ st with status := .Closed }, [lp.onSelected option], .Captured)
        | none => (st, [], .Ignored)
      | none => (st, [], .Ignored)
    else
      ({ st with status := .Closing }, [], .Ignored)
  | .cursorMoved =>
    if bounds.contains cursor then
      ({ st with hovered := some (lp.hoverIndex defaultSize bounds cursor) }, [], .Ignored)
    else
      (st, [], .Ignored)
  | .fingerPressed =>
    if bounds.contains cursor then
      let idx := lp.hoverIndex defaultSize bounds cursor
      match lp.options[idx]? with
      | some option =>
        ({ hovered := some idx, status := .Closed }, [lp.onSelected option], .Captured)
      | none => ({ st with hovered := some idx }, [], .Ignored)
    else
      ({ st with status := .Closing }, [], .Ignored)
  | .other => (st, [], .Ignored)

/-- Embeds the row-range computation of `List::draw` (menu.rs, lines
485-551): `option_height = (text_size + padding.vertical()) as usize`,
`offset = viewport.y - bounds.y`, `start = (offset / option_height) as
usize`, `end = ((offset + viewport.height) / option_height).ceil() as
usize`, and the drawn rows are the indices of the slice
`options[start..end.min(options.len())]` shifted by `start`.  The result
is `none` when the slice's start exceeds its end, which makes the Rust
slice indexing panic. -/
def MenuList.drawRows {T M : Type} (lp : MenuList T M) (defaultSize : ℚ)
    (boundsY viewportY viewportHeight : ℚ) : Option (List ℕ) :=
  let optionHeight : ℕ := ratToUsize (lp.rowHeight defaultSize)
  let offset : ℚ := viewportY - boundsY
  let start : ℕ := ratToUsize (offset / (optionHeight : ℚ))
  let stop : ℕ :=
    min (ratCeilToUsize ((offset + viewportHeight) / (optionHeight : ℚ)))
      lp.options.length
  if start ≤ stop then some (List.range' start (stop - start)) else none

/-- Embeds `Length` as far as the menu uses it (`Fill`, `Shrink`, and the
fixed width coming from `f32`). -/
inductive Length where
  | Fill
  | Shrink
  | Fixed (amount : ℚ)

/-- Modelled from the spec: the external layout-measurement capability
(spec sections 1 and 6; `layout::Limits` lives outside `src/`).  Limits
carry a minimum, maximum and fill size; constraining a side to a fixed
amount clamps that amount between the minimum and the maximum, `Fill`
lets the fill span the available maximum, and `Shrink` collapses the
fill onto the minimum. -/
structure Limits where
  min : Size
  max : Size
  fill : Size

/-- Modelled from the spec: `Limits::new(min, max)` starts with the fill
at the maximum. -/
def Limits.new (mn mx : Size) : Limits :=
  ⟨mn, mx, mx⟩

/-- Modelled from the spec: `Limits::width`. -/
def Limits.width (l : Limits) : Length → Limits
  | .Shrink => { l with fill := ⟨l.min.width, l.fill.height⟩ }
  | .Fill => { l with fill := ⟨Min.min l.fill.width l.max.width, l.fill.height⟩ }
  | .Fixed amount =>
    let w := Max.max (Min.min amount l.max.width) l.min.width
    { min := ⟨w, l.min.height⟩, max := ⟨w, l.max.height⟩, fill := ⟨w, l.fill.height⟩ }

/-- Modelled from the spec: `Limits::height`. -/
def Limits.height (l : Limits) : Length → Limits
  | .Shrink => { l with fill := ⟨l.fill.width, l.min.height⟩ }
  | .Fill => { l with fill := ⟨l.fill.width, Min.min l.fill.height l.max.height⟩ }
  | .Fixed amount =>
    let h := Max.max (Min.min amount l.max.height) l.min.height
    { min := ⟨l.min.width, h⟩, max := ⟨l.max.width, h⟩, fill := ⟨l.fill.width, h⟩ }

/-- Modelled from the spec: `Limits::resolve(intrinsic)` caps the
intrinsic size by the maximum and raises it to the fill. -/
def Limits.resolve (l : Limits) (intrinsic : Size) : Size :=
  ⟨Max.max (Min.min intrinsic.width l.max.width) l.fill.width,
    Max.max (Min.min intrinsic.height l.max.height) l.fill.height⟩

/-- Embeds `List::layout` (menu.rs, lines 372-394): fill the width,
shrink the height, and resolve the intrinsic size
`(text_size + padding.vertical()) * options.len()`. -/
def MenuList.layoutSize {T M : Type} (lp : MenuList T M) (defaultSize : ℚ)
    (limits : Limits) : Size :=
  let limits := (limits.width .Fill).height .Shrink
  let intrinsic : Size := ⟨0, lp.rowHeight defaultSize * lp.options.length⟩
  limits.resolve intrinsic

/-- Embeds `Overlay::layout` of the menu (menu.rs, lines 240-271).  The
container's layout pass is an external collaborator and enters as the
`contentLayout` parameter; the function returns the resolved bounds of
the laid-out node after `move_to`. -/
def MenuOverlay.layoutNode (contentLayout : Limits → Size)
    (width targetHeight : ℚ) (bounds : Size) (position : Point) : Rectangle :=
  let spaceBelow := bounds.height - (position.y + targetHeight)
  let spaceAbove := position.y
  let limits :=
    (Limits.new ⟨0, 0⟩
        ⟨bounds.width - position.x,
          if spaceBelow > spaceAbove then spaceBelow else spaceAbove⟩).width
      (.Fixed width)
  let size := contentLayout limits
  if spaceBelow > spaceAbove then
    ⟨position.x, position.y + targetHeight, size.width, size.height⟩
  else
    ⟨position.x, position.y - size.height, size.width, size.height⟩

/-- Embeds `layout::Node`: a resolved bounds rectangle plus children. -/
inductive Node where
  | mk (bounds : Rectangle) (children : List Node)

/-- Bounds of a node. -/
def Node.bounds : Node → Rectangle
  | .mk b _ => b

/-- Children of a node. -/
def Node.children : Node → List Node
  | .mk _ cs => cs

/-- Embeds `Node::size`. -/
def Node.size (n : Node) : Size :=
  ⟨n.bounds.width, n.bounds.height⟩

/-- Embeds `layout::Node::with_children` (the node sits at the origin). -/
def Node.withChildren (size : Size) (children : List Node) : Node :=
  .mk ⟨0, 0, size.width, size.height⟩ children

/-- Sentinel off-screen cursor `Point::new(-1.0, -1.0)` used by the
composer to hide the cursor from an occluded level. -/
def sentinelCursor : Point :=
  ⟨-1, -1⟩

/-- Capability record of one overlay surface in a chain, as the nested
composer consumes it: its `layout`, `on_event` and `is_over` methods.
`sid` is an identity tag used to record which surface a composer call
went to; `onEventFn` takes the event (opaque, embedded as `ℕ`), the
surface's layout and the cursor. -/
structure SurfaceData where
  sid : ℕ
  layoutFn : Size → Point → Node
  onEventFn : ℕ → Node → Point → EventStatus
  isOverFn : Node → Point → Bool

/-- Runtime overlay chain walked by `Nested` during one pass: a surface
either exposes no nested surface (`leaf`) or exposes one (`node`), where
the nested surface is produced from the parent's resolved layout node —
embedding `element.overlay(layout, renderer)`. -/
inductive Chain where
  | leaf (s : SurfaceData)
  | node (s : SurfaceData) (child : Node → Chain)

/-- Surface sitting at the head of a chain. -/
def Chain.surf : Chain → SurfaceData
  | .leaf s => s
  | .node s _ => s

/-- Embeds the `recurse` of `Nested::layout` (nested.rs, lines 43-80):
each level computes its own node from the bounds and the original anchor
position, asks the level for its nested surface, and wraps the results
into a two-child node (or a single-child node at the last level). -/
def Nested.layoutRec : Chain → Size → Point → Node
  | .leaf s, bounds, position =>
    let n := s.layoutFn bounds position
    Node.withChildren n.size [n]
  | .node s child, bounds, position =>
    let n := s.layoutFn bounds position
    Node.withChildren n.size [n, Nested.layoutRec (child n) bounds position]

/-- Per-level layout nodes produced along one `Nested::layout` pass, in
outermost-first order: each level's node is computed by that level's
surface, and the next surface is obtained from the previous level's
resolved node. -/
def Nested.layoutPath : Chain → Size → Point → List Node
  | .leaf s, bounds, position => [s.layoutFn bounds position]
  | .node s child, bounds, position =>
    let n := s.layoutFn bounds position
    n :: Nested.layoutPath (child n) bounds position

/-- Nesting depth materialized by one layout pass (0 for a chain whose
first surface exposes no nested surface). -/
def Nested.chainDepth : Chain → Size → Point → ℕ
  | .leaf _, _, _ => 0
  | .node s child, bounds, position =>
    Nested.chainDepth (child (s.layoutFn bounds position)) bounds position + 1

/-- Rebuilds the tree shape of `Nested::layout` from the per-level nodes:
every level wraps its own node and the subtree of the deeper levels. -/
def Nested.buildTree : List Node → Node
  | [] => Node.withChildren ⟨0, 0⟩ []
  | n :: rest =>
    Node.withChildren n.size
      (n :: (match rest with
        | [] => []
        | m :: ms => [Nested.buildTree (m :: ms)]))

/-- Embeds the `recurse` of `Nested::on_event` (nested.rs, lines
183-249).  Alongside the returned `event::Status` it records the trace
of `on_event` calls the composer performs, innermost first: each entry
is the invoked surface's tag, the event it received, and the cursor it
received. -/
def Nested.onEventRec : Chain → Node → ℕ → Point → EventStatus × List (ℕ × ℕ × Point)
  | .leaf s, lay, ev, cursor =>
    match lay.children with
    | [] => (.Ignored, [])
    | l :: _ => (s.onEventFn ev l cursor, [(s.sid, ev, cursor)])
  | .node s child, lay, ev, cursor =>
    match lay.children with
    | [] => (.Ignored, [])
    | l :: rest =>
      let inner : EventStatus × List (ℕ × ℕ × Point) :=
        match rest with
        | nl :: _ => Nested.onEventRec (child l) nl ev cursor
        | [] => (.Ignored, [])
      match inner with
      | (.Ignored, tr) => (s.onEventFn ev l cursor, tr ++ [(s.sid, ev, cursor)])
      | st => st

/-- Surfaces of a chain paired with their own layout nodes, in
outermost-first order, following the tree produced by `Nested::layout`
(first child = the level's own node, second child = the nested
subtree). -/
def Nested.levels : Chain → Node → List (SurfaceData × Node)
  | .leaf s, lay =>
    match lay.children with
    | [] => []
    | l :: _ => [(s, l)]
  | .node s child, lay =>
    match lay.children with
    | [] => []
    | [l] => [(s, l)]
    | l :: nl :: _ => (s, l) :: Nested.levels (child l) nl

/-- Dispatch discipline stated by the spec, over the outermost-first
level list: the innermost level's handler is invoked first; while a
handler returns `Ignored`, the next outer handler is invoked with the
same event and the same cursor; a `Captured` result stops the walk. -/
def Nested.specDispatch : List (SurfaceData × Node) → ℕ → Point → EventStatus × List (ℕ × ℕ × Point)
  | [], _, _ => (.Ignored, [])
  | (s, l) :: deeper, ev, cursor =>
    match Nested.specDispatch deeper ev cursor with
    | (.Ignored, tr) => (s.onEventFn ev l cursor, tr ++ [(s.sid, ev, cursor)])
    | st => st

/-- Embeds the `recurse` of `Nested::draw` (nested.rs, lines 82-151) as
its draw trace: for each level, the clip rectangle handed to
`Renderer::with_layer` and the cursor handed to the level's `draw`.
Before drawing a level, the composer asks the nested surface (obtained
from the level's layout) whether the cursor is over it, passing the
nested subtree layout; if so the level draws with the sentinel cursor.
The recursion continues with the original cursor. -/
def Nested.drawRec : Chain → Node → Point → List (Rectangle × Point)
  | .leaf _, lay, cursor =>
    match lay.children with
    | [] => []
    | l :: _ => [(l.bounds, cursor)]
  | .node _ child, lay, cursor =>
    match lay.children with
    | [] => []
    | [l] => [(l.bounds, cursor)]
    | l :: nl :: _ =>
      let isOver := ((child l).surf).isOverFn nl cursor
      (l.bounds, if isOver then sentinelCursor else cursor) ::
        Nested.drawRec (child l) nl cursor

/-- Level walk of a chain against a layout tree: each entry carries the
level's surface, that level's own node, and — when a nested level exists
both in the chain and in the layout — the nested surface together with
the nested subtree node it is queried with. -/
def Nested.walk : Chain → Node → List (SurfaceData × Node × Option (SurfaceData × Node))
  | .leaf s, lay =>
    match lay.children with
    | [] => []
    | l :: _ => [(s, l, none)]
  | .node s child, lay =>
    match lay.children with
    | [] => []
    | [l] => [(s, l, none)]
    | l :: nl :: _ =>
      (s, l, some ((child l).surf, nl)) :: Nested.walk (child l) nl

/-- Cursor a level is drawn with, per the spec: the sentinel if the next
level reports the cursor as over it, the real cursor otherwise. -/
def Nested.occludedCursor : Option (SurfaceData × Node) → Point → Point
  | some (s2, nl), cursor => if s2.isOverFn nl cursor then sentinelCursor else cursor
  | none, cursor => cursor

/-- Embeds `impl Overlay for Nested`'s `overlay` method (nested.rs,
lines 352-358): it returns `None` for every layout. -/
def Nested.overlayChild (_c : Chain) (_layout : Node) : Option Chain :=
  none

/-- Outer surface of a concrete two-level chain: its handler ignores
every event. -/
def c1Outer : SurfaceData :=
  ⟨0, fun _ _ => Node.mk ⟨0, 0, 10, 10⟩ [], fun _ _ _ => .Ignored, fun _ _ => false⟩

/-- Inner surface of the concrete two-level chain: its handler ignores
every event and it reports the cursor as over it everywhere. -/
def c1Inner : SurfaceData :=
  ⟨1, fun _ _ => Node.mk ⟨2, 2, 4, 4⟩ [], fun _ _ _ => .Ignored, fun _ _ => true⟩

/-- Concrete two-level overlay chain: `c1Outer` exposing `c1Inner`. -/
def c1Chain : Chain :=
  .node c1Outer fun _ => .leaf c1Inner

/-- Layout tree of the concrete chain, shaped as `Nested::layout` builds
it: root wrapping the outer node and the nested subtree. -/
def c1Layout : Node :=
  .mk ⟨0, 0, 10, 10⟩
    [.mk ⟨0, 0, 10, 10⟩ [], .mk ⟨0, 0, 4, 4⟩ [.mk ⟨2, 2, 4, 4⟩ []]]

end Iced

namespace Iced

/-- Helper: the saturating cast maps a natural-number rational back to
the same natural number. -/
theorem ratToUsize_natCast (n : ℕ) : ratToUsize (n : ℚ) = n := by
  have h : ¬((n : ℚ) < 0) := not_lt.mpr (by positivity)
  simp [ratToUsize, h]

/-- C1 counterexample: in the two-level chain `c1Chain`, the inner level
reports the cursor `(3, 3)` as over it and its handler returns
`Ignored`, yet the outer level's handler is invoked with the original
cursor `(3, 3)` rather than the sentinel off-screen coordinate:
`Nested::on_event` performs no cursor substitution while bubbling. -/
theorem c1_counterexample :
    Nested.onEventRec c1Chain c1Layout 7 ⟨3, 3⟩ =
      (.Ignored, [(1, 7, ⟨3, 3⟩), (0, 7, ⟨3, 3⟩)]) ∧
    c1Inner.isOverFn (Node.mk ⟨0, 0, 4, 4⟩ [Node.mk ⟨2, 2, 4, 4⟩ []]) ⟨3, 3⟩ = true ∧
    (⟨3, 3⟩ : Point) ≠ sentinelCursor := by
  refine ⟨by decide, by decide, by decide⟩

/-- C1 (amended): nested overlay event dispatch is innermost-first with
outward bubbling.  For every overlay chain and layout tree, the composer
equals the spec-side discipline `specDispatch`: the deepest surface's
handler is invoked first; whenever an inner level returns `Ignored` the
next outer handler is invoked with the same event and the same
(unsubstituted) cursor; if any inner level returns `Captured`, no outer
handler is invoked and the overall result is `Captured`. -/
theorem nested_onEvent_innermost_bubbling (c : Chain) (lay : Node) (ev : ℕ) (cursor : Point) :
    Nested.onEventRec c lay ev cursor =
      Nested.specDispatch (Nested.levels c lay) ev cursor := by
  induction c generalizing lay with
  | leaf s =>
    obtain ⟨b, cs⟩ := lay
    cases cs with
    | nil => simp [Nested.onEventRec, Nested.levels, Nested.specDispatch, Node.children]
    | cons l rest =>
      simp [Nested.onEventRec, Nested.levels, Nested.specDispatch, Node.children]
  | node s child ih =>
    obtain ⟨b, cs⟩ := lay
    cases cs with
    | nil => simp [Nested.onEventRec, Nested.levels, Nested.specDispatch, Node.children]
    | cons l rest =>
      cases rest with
      | nil => simp [Nested.onEventRec, Nested.levels, Nested.specDispatch, Node.children]
      | cons nl rest2 =>
        simp only [Nested.onEventRec, Nested.levels, Nested.specDispatch, Node.children, ih]

/-- C2: draw-time occlusion.  The draw trace of the composer is, level
by level, a clipped layer at that level's own layout bounds, drawn with
the sentinel cursor exactly when the next level (queried with the nested
subtree layout) reports the real cursor as over it, and with the real
cursor otherwise. -/
theorem nested_draw_occlusion (c : Chain) (lay : Node) (cursor : Point) :
    Nested.drawRec c lay cursor =
      (Nested.walk c lay).map
        (fun e => (e.2.1.bounds, Nested.occludedCursor e.2.2 cursor)) := by
  induction c generalizing lay with
  | leaf s =>
    obtain ⟨b, cs⟩ := lay
    cases cs <;>
      simp [Nested.drawRec, Nested.walk, Nested.occludedCursor, Node.children]
  | node s child ih =>
    obtain ⟨b, cs⟩ := lay
    cases cs with
    | nil => simp [Nested.drawRec, Nested.walk, Node.children]
    | cons l rest =>
      cases rest with
      | nil => simp [Nested.drawRec, Nested.walk, Nested.occludedCursor, Node.children]
      | cons nl rest2 =>
        simp [Nested.drawRec, Nested.walk, Nested.occludedCursor, Node.children, ih]

/-- C8: layout node structure.  One layout pass returns exactly the tree
rebuilt from the per-level nodes (`layoutPath`): one node per level in
order, where each next surface is obtained from the previous level's
resolved node; the number of per-level nodes is 1 + the materialized
nesting depth, and the root node always has at least one child. -/
theorem nested_layout_structure (c : Chain) (bounds : Size) (position : Point) :
    Nested.layoutRec c bounds position =
      Nested.buildTree (Nested.layoutPath c bounds position) ∧
    (Nested.layoutPath c bounds position).length =
      Nested.chainDepth c bounds position + 1 ∧
    1 ≤ (Nested.layoutRec c bounds position).children.length := by
  induction c with
  | leaf s =>
    refine ⟨rfl, rfl, ?_⟩
    simp [Nested.layoutRec, Node.withChildren, Node.children]
  | node s child ih =>
    obtain ⟨ht, hlen, _⟩ := ih (s.layoutFn bounds position)
    cases hp : Nested.layoutPath (child (s.layoutFn bounds position)) bounds position with
    | nil => rw [hp] at hlen; simp at hlen
    | cons m ms =>
      refine ⟨?_, ?_, ?_⟩
      · simp only [Nested.layoutRec, Nested.layoutPath, Nested.buildTree, hp, ht]
      · simp [Nested.layoutPath, Nested.chainDepth, hlen]
      · simp [Nested.layoutRec, Node.withChildren, Node.children]

/-- C10: the `Nested` composer's own overlay query always returns
`None`, so a `Nested` placed as a level of an outer chain embeds as a
chain leaf: the outer chain terminates at it (it contributes exactly its
own level and nothing deeper). -/
theorem nested_overlay_query_none :
    (∀ (c : Chain) (lay : Node), Nested.overlayChild c lay = none) ∧
    (∀ (s : SurfaceData) (lay : Node),
      (Nested.levels (Chain.leaf s) lay).length ≤ 1) := by
  refine ⟨fun c lay => rfl, fun s lay => ?_⟩
  obtain ⟨b, cs⟩ := lay
  cases cs <;> simp [Nested.levels, Node.children]

/-- C3: press resolution inside the list's bounds.  A left press with a
hovered index that is in range publishes exactly the one selection
message `on_selected(options[i])`, closes the menu and captures the
event; a hovered index of `None` or out of range publishes nothing,
leaves the state unchanged and reports `Ignored` (the option sequence is
consulted through a checked lookup, never indexed out of range).  A
touch press inside bounds behaves the same on the freshly recomputed
hover index. -/
theorem menuList_press_selection {T M : Type} (lp : MenuList T M) (ds : ℚ)
    (st : ListState) (bounds : Rectangle) (cursor : Point)
    (hin : bounds.contains cursor = true) :
    (∀ i opt, st.hovered = some i → lp.options[i]? = some opt →
      lp.onEvent ds st .leftPressed bounds cursor =
        ({ st with status := .Closed }, [lp.onSelected opt], .Captured)) ∧
    (∀ i, st.hovered = some i → lp.options.length ≤ i →
      lp.onEvent ds st .leftPressed bounds cursor = (st, [], .Ignored)) ∧
    (st.hovered = none →
      lp.onEvent ds st .leftPressed bounds cursor = (st, [], .Ignored)) ∧
    (∀ opt, lp.options[lp.hoverIndex ds bounds cursor]? = some opt →
      lp.onEvent ds st .fingerPressed bounds cursor =
        (⟨some (lp.hoverIndex ds bounds cursor), .Closed⟩, [lp.onSelected opt], .Captured)) ∧
    (lp.options.length ≤ lp.hoverIndex ds bounds cursor →
      lp.onEvent ds st .fingerPressed bounds cursor =
        ({ st with hovered := some (lp.hoverIndex ds bounds cursor) }, [], .Ignored)) := by
  refine ⟨?_, ?_, ?_, ?_, ?_⟩
  · intro i opt hi hopt
    simp [MenuList.onEvent, hin, hi, hopt]
  · intro i hi hlen
    simp [MenuList.onEvent, hin, hi, List.getElem?_eq_none hlen]
  · intro hnone
    simp [MenuList.onEvent, hin, hnone]
  · intro opt hopt
    simp [MenuList.onEvent, hin, hopt]
  · intro hlen
    simp [MenuList.onEvent, hin, List.getElem?_eq_none hlen]

/-- C3 witness: two options, hovered index 1 inside bounds; the press
publishes the mapped second option, closes the menu and captures. -/
theorem menuList_press_selection_witness :
    MenuList.onEvent (⟨[10, 20], fun t => t + 1, ⟨0, 0, 0, 0⟩, some 1⟩ : MenuList ℕ ℕ) 1
      ⟨some 1, .Open⟩ .leftPressed ⟨0, 0, 10, 10⟩ ⟨1, 1⟩ =
      (⟨some 1, .Closed⟩, [21], .Captured) :=
  (menuList_press_selection
      (⟨[10, 20], fun t => t + 1, ⟨0, 0, 0, 0⟩, some 1⟩ : MenuList ℕ ℕ) 1
      ⟨some 1, .Open⟩ ⟨0, 0, 10, 10⟩ ⟨1, 1⟩
      (by norm_num [Rectangle.contains])).1 1 20 rfl rfl

/-- C6: a press or touch press outside the list's bounds while the menu
is open moves the status to `Closing`, publishes nothing and reports the
event as `Ignored`. -/
theorem menuList_press_outside_closing {T M : Type} (lp : MenuList T M) (ds : ℚ)
    (st : ListState) (bounds : Rectangle) (cursor : Point)
    (hout : bounds.contains cursor = false) (_hopen : st.status = .Open) :
    lp.onEvent ds st .leftPressed bounds cursor =
      ({ st with status := .Closing }, [], .Ignored) ∧
    lp.onEvent ds st .fingerPressed bounds cursor =
      ({ st with status := .Closing }, [], .Ignored) := by
  constructor <;> simp [MenuList.onEvent, hout]

/-- C6 witness: a press far outside the bounds of an open menu. -/
theorem menuList_press_outside_closing_witness :
    MenuList.onEvent (⟨[10, 20], fun t => t + 1, ⟨0, 0, 0, 0⟩, some 1⟩ : MenuList ℕ ℕ) 1
      ⟨none, .Open⟩ .leftPressed ⟨0, 0, 10, 10⟩ ⟨50, 50⟩ =
      (⟨none, .Closing⟩, [], .Ignored) :=
  (menuList_press_outside_closing
      (⟨[10, 20], fun t => t + 1, ⟨0, 0, 0, 0⟩, some 1⟩ : MenuList ℕ ℕ) 1
      ⟨none, .Open⟩ ⟨0, 0, 10, 10⟩ ⟨50, 50⟩
      (by norm_num [Rectangle.contains]) rfl).1

/-- C9 counterexample: with the hovered slot holding `Some 0`, a pointer
move to `(50, 50)` — outside the list's bounds, so no option is under
the pointer — leaves the stale `Some 0` in the slot instead of clearing
it to `None`: the code only rewrites the slot when the cursor is inside
the bounds. -/
theorem c9_counterexample :
    MenuList.onEvent (⟨[5], fun t => t, ⟨0, 0, 0, 0⟩, some 1⟩ : MenuList ℕ ℕ) 1
      ⟨some 0, .Open⟩ .cursorMoved ⟨0, 0, 10, 10⟩ ⟨50, 50⟩ =
      (⟨some 0, .Open⟩, [], .Ignored) ∧
    Rectangle.contains ⟨0, 0, 10, 10⟩ ⟨50, 50⟩ = false := by
  refine ⟨by norm_num [MenuList.onEvent, Rectangle.contains],
    by norm_num [Rectangle.contains]⟩

/-- C9 (amended): after a pointer-move inside the list's bounds the
shared hovered slot holds `Some(floor((cursor.y − bounds.y) /
row_height))`; a move outside the bounds leaves the slot (and the whole
state) unchanged, so a previously set `Some` index may persist. -/
theorem menuList_move_hover {T M : Type} (lp : MenuList T M) (ds : ℚ)
    (st : ListState) (bounds : Rectangle) (cursor : Point)
    (hrow : 0 < lp.rowHeight ds) :
    (bounds.contains cursor = true →
      lp.onEvent ds st .cursorMoved bounds cursor =
        (⟨some (⌊(cursor.y - bounds.y) / lp.rowHeight ds⌋.toNat), st.status⟩, [], .Ignored)) ∧
    (bounds.contains cursor = false →
      lp.onEvent ds st .cursorMoved bounds cursor = (st, [], .Ignored)) := by
  constructor
  · intro hin
    have hin' := hin
    simp only [Rectangle.contains, Bool.and_eq_true, decide_eq_true_eq] at hin'
    obtain ⟨⟨⟨hx1, hx2⟩, hy1⟩, hy2⟩ := hin'
    have h0 : ¬((cursor.y - bounds.y) / lp.rowHeight ds < 0) :=
      not_lt.mpr (div_nonneg (by linarith) hrow.le)
    simp [MenuList.onEvent, hin, MenuList.hoverIndex, ratToUsize, h0]
  · intro hout
    simp [MenuList.onEvent, hout]

/-- C9 witness: a move to `(1, 3)` inside bounds with row height 1 sets
the hovered slot to `Some 3`. -/
theorem menuList_move_hover_witness :
    MenuList.onEvent (⟨[5], fun t => t, ⟨0, 0, 0, 0⟩, some 1⟩ : MenuList ℕ ℕ) 1
      ⟨none, .Open⟩ .cursorMoved ⟨0, 0, 10, 10⟩ ⟨1, 3⟩ =
      (⟨some 3, .Open⟩, [], .Ignored) := by
  have h := (menuList_move_hover
      (⟨[5], fun t => t, ⟨0, 0, 0, 0⟩, some 1⟩ : MenuList ℕ ℕ) 1
      ⟨none, .Open⟩ ⟨0, 0, 10, 10⟩ ⟨1, 3⟩
      (by norm_num [MenuList.rowHeight, Padding.vertical])).1
      (by norm_num [Rectangle.contains])
  rw [h]
  norm_num [MenuList.rowHeight, Padding.vertical]
  rfl

/-- C4 counterexample, refuting the claim at two concrete inputs.
First, with an empty option sequence (row height 1) and a viewport
starting one row past the list's end, the claim prescribes drawing
exactly the rows in `[start, end∧N) = [1, 0)` — none — but the code
slices `options[1..0]`, which panics (modelled as `none`).  Second, with
the fractional row height `3/2` (truncated by the code to the stride
`option_height = 1`), two options, and the viewport strip
`[6/5, 6/5 + 1/10]`: row 0's rectangle spans `[0, 0 + 3/2]` (menu.rs
lays row `i` at `bounds.y + option_height * i` with height
`text_size + padding.vertical()`), so it intersects the viewport, and
the claim's `start = floor(offset / h) = floor((6/5) / (3/2)) = 0`
requires row 0 to be drawn — yet the code divides by the truncated
stride, computes `start = floor((6/5) / 1) = 1`, and draws only row 1:
it under-renders, skipping a still-visible row. -/
theorem c4_counterexample :
    MenuList.drawRows (⟨[], fun t => t, ⟨0, 0, 0, 0⟩, some 1⟩ : MenuList ℕ ℕ) 1 0 1 1 =
      none ∧
    (none : Option (List ℕ)) ≠ some (List.range' 1 0) ∧
    MenuList.drawRows (⟨[10, 20], fun t => t, ⟨0, 0, 0, 0⟩, some (3 / 2)⟩ : MenuList ℕ ℕ) 1
      0 (6 / 5) (1 / 10) = some [1] ∧
    ((0 : ℚ) * (3 / 2) < 6 / 5 - 0 + 1 / 10 ∧ (6 / 5 : ℚ) - 0 < 0 * (3 / 2) + 3 / 2) ∧
    (0 : ℕ) ∉ [1] := by
  refine ⟨?_, by decide, ?_, by norm_num, by decide⟩
  · norm_num [MenuList.drawRows, MenuList.rowHeight, Padding.vertical,
      ratToUsize, ratCeilToUsize]
  · have hc : (⌈(13 : ℚ) / 10⌉ : ℤ) = 2 := by
      rw [Int.ceil_eq_iff]
      norm_num
    norm_num [MenuList.drawRows, MenuList.rowHeight, Padding.vertical,
      ratToUsize, ratCeilToUsize, hc]
    try decide

/-- C4 (amended): virtualized rendering bounds.  The code computes the
row range with `H = (text_size + padding.vertical()) as usize` — the
usize-truncated row height — not with the exact row height.  Provided
`H > 0` and the computed `start = floor(offset / H)` (saturating at 0)
does not exceed `min(end, N)` where
`end = ceil((offset + viewport_height) / H)` (the Rust slice
`options[start..end.min(N)]` panics otherwise, see the counterexample),
the draw renders exactly the rows with indices in `[start, min(end, N))`
and never indexes past `N`.  When additionally the row height is exactly
the whole number `H`, this range covers every row whose rectangle
(laid at stride `H` with height `row_height`) intersects the viewport;
for fractional row heights a still-visible row can be skipped (see the
counterexample). -/
theorem menuList_draw_virtualization {T M : Type} (lp : MenuList T M) (ds : ℚ)
    (boundsY viewportY viewportHeight : ℚ) (H : ℕ)
    (hH : ratToUsize (lp.rowHeight ds) = H) (hpos : 0 < H)
    (hle : ratToUsize ((viewportY - boundsY) / (H : ℚ)) ≤
      min (ratCeilToUsize ((viewportY - boundsY + viewportHeight) / (H : ℚ)))
        lp.options.length) :
    lp.drawRows ds boundsY viewportY viewportHeight =
      some (List.range' (ratToUsize ((viewportY - boundsY) / (H : ℚ)))
        (min (ratCeilToUsize ((viewportY - boundsY + viewportHeight) / (H : ℚ)))
            lp.options.length -
          ratToUsize ((viewportY - boundsY) / (H : ℚ)))) ∧
    (lp.rowHeight ds = (H : ℚ) →
      ∀ i : ℕ, i < lp.options.length →
      (i : ℚ) * (H : ℚ) < viewportY - boundsY + viewportHeight →
      viewportY - boundsY < (i : ℚ) * (H : ℚ) + lp.rowHeight ds →
      ratToUsize ((viewportY - boundsY) / (H : ℚ)) ≤ i ∧
        i < min (ratCeilToUsize ((viewportY - boundsY + viewportHeight) / (H : ℚ)))
          lp.options.length) ∧
    (∀ i ∈ List.range' (ratToUsize ((viewportY - boundsY) / (H : ℚ)))
        (min (ratCeilToUsize ((viewportY - boundsY + viewportHeight) / (H : ℚ)))
            lp.options.length -
          ratToUsize ((viewportY - boundsY) / (H : ℚ))),
      i < lp.options.length) := by
  have hHQ : (0 : ℚ) < (H : ℚ) := by exact_mod_cast hpos
  refine ⟨?_, ?_, ?_⟩
  · simp only [MenuList.drawRows, hH]
    rw [if_pos hle]
  · intro hexact i hiN h1 h2
    rw [hexact] at h2
    constructor
    · by_cases hneg : (viewportY - boundsY) / (H : ℚ) < 0
      · simp [ratToUsize, hneg]
      · rw [ratToUsize, if_neg hneg]
        have hlt : (viewportY - boundsY) / (H : ℚ) < (i : ℚ) + 1 := by
          rw [div_lt_iff₀ hHQ]
          have he : ((i : ℚ) + 1) * (H : ℚ) = (i : ℚ) * (H : ℚ) + (H : ℚ) := by ring
          rw [he]
          exact h2
        have hfloor : ⌊(viewportY - boundsY) / (H : ℚ)⌋ < (i : ℤ) + 1 := by
          rw [Int.floor_lt]
          push_cast
          exact hlt
        omega
    · have hq : (0 : ℚ) < viewportY - boundsY + viewportHeight := by
        have h0 : (0 : ℚ) ≤ (i : ℚ) * (H : ℚ) := by positivity
        linarith
      have hnneg : ¬((viewportY - boundsY + viewportHeight) / (H : ℚ) < 0) :=
        not_lt.mpr (div_pos hq hHQ).le
      refine lt_min ?_ hiN
      rw [ratCeilToUsize, if_neg hnneg]
      have hceil : (i : ℤ) < ⌈(viewportY - boundsY + viewportHeight) / (H : ℚ)⌉ := by
        rw [Int.lt_ceil]
        push_cast
        rw [lt_div_iff₀ hHQ]
        exact h1
      omega
  · intro i hi
    have hmem := List.mem_range'_1.mp hi
    have hstop : min (ratCeilToUsize ((viewportY - boundsY + viewportHeight) / (H : ℚ)))
        lp.options.length ≤ lp.options.length := min_le_right _ _
    omega

/-- C4 witness: three rows of height 1 with the viewport `[1/2, 5/2]`
yields exactly the rows 0, 1 and 2. -/
theorem menuList_draw_virtualization_witness :
    MenuList.drawRows (⟨[0, 1, 2], fun t => t, ⟨0, 0, 0, 0⟩, some 1⟩ : MenuList ℕ ℕ) 1
      0 (1 / 2) 2 = some [0, 1, 2] := by
  have h := (menuList_draw_virtualization
      (⟨[0, 1, 2], fun t => t, ⟨0, 0, 0, 0⟩, some 1⟩ : MenuList ℕ ℕ) 1 0 (1 / 2) 2 1
      (by norm_num [MenuList.rowHeight, Padding.vertical, ratToUsize]) (by norm_num)
      (by norm_num [ratToUsize, ratCeilToUsize])).1
  rw [h]
  have hc : (⌈(5 : ℚ) / 2⌉ : ℤ) = 3 := by
    rw [Int.ceil_eq_iff]
    norm_num
  norm_num [ratToUsize, ratCeilToUsize, hc]
  try decide

/-- C7: intrinsic list height.  With the fill starting at the maximum
(as `Limits::new` sets it) and a zero minimum height, the list's
resolved height equals `row_height × N` exactly whenever that fits the
limits, is `0` for `N = 0`, and the resolved width fills the whole
available horizontal space. -/
theorem menuList_intrinsic_height {T M : Type} (lp : MenuList T M) (ds : ℚ)
    (l : Limits) (hfw : l.fill.width = l.max.width)
    (hminH : l.min.height = 0) (hrow : 0 < lp.rowHeight ds) :
    (lp.rowHeight ds * lp.options.length ≤ l.max.height →
      (lp.layoutSize ds l).height = lp.rowHeight ds * lp.options.length) ∧
    (lp.options.length = 0 → (lp.layoutSize ds l).height = 0) ∧
    (lp.layoutSize ds l).width = l.max.width := by
  have hsize : lp.layoutSize ds l =
      ⟨Max.max (Min.min 0 l.max.width) (Min.min l.fill.width l.max.width),
        Max.max (Min.min (lp.rowHeight ds * lp.options.length) l.max.height)
          l.min.height⟩ := by
    simp [MenuList.layoutSize, Limits.width, Limits.height, Limits.resolve]
  refine ⟨?_, ?_, ?_⟩
  · intro hle
    rw [hsize]
    show Max.max (Min.min (lp.rowHeight ds * lp.options.length) l.max.height)
        l.min.height = _
    rw [hminH, min_eq_left hle]
    exact max_eq_left (mul_nonneg hrow.le (Nat.cast_nonneg _))
  · intro hN
    rw [hsize]
    show Max.max (Min.min (lp.rowHeight ds * lp.options.length) l.max.height)
        l.min.height = _
    rw [hminH, hN]
    push_cast
    rw [mul_zero]
    exact max_eq_right (min_le_left _ _)
  · rw [hsize]
    show Max.max (Min.min 0 l.max.width) (Min.min l.fill.width l.max.width) = _
    rw [hfw, min_self]
    exact max_eq_right (min_le_right _ _)

/-- C7 witness: two options with row height 4 inside ample limits give
height 8 and full available width 100. -/
theorem menuList_intrinsic_height_witness :
    (MenuList.layoutSize (⟨[10, 20], fun t => t, ⟨1, 0, 1, 0⟩, some 2⟩ : MenuList ℕ ℕ) 1
        ⟨⟨0, 0⟩, ⟨100, 100⟩, ⟨100, 100⟩⟩).height = 8 ∧
    (MenuList.layoutSize (⟨[10, 20], fun t => t, ⟨1, 0, 1, 0⟩, some 2⟩ : MenuList ℕ ℕ) 1
        ⟨⟨0, 0⟩, ⟨100, 100⟩, ⟨100, 100⟩⟩).width = 100 := by
  have h := menuList_intrinsic_height
    (⟨[10, 20], fun t => t, ⟨1, 0, 1, 0⟩, some 2⟩ : MenuList ℕ ℕ) 1
    ⟨⟨0, 0⟩, ⟨100, 100⟩, ⟨100, 100⟩⟩ rfl rfl
    (by norm_num [MenuList.rowHeight, Padding.vertical])
  refine ⟨?_, h.2.2⟩
  rw [h.1 (by norm_num [MenuList.rowHeight, Padding.vertical])]
  norm_num [MenuList.rowHeight, Padding.vertical]

/-- C5: menu placement.  Whenever the content respects the handed-down
limits, the laid-out list sits directly below the target (top edge at
`position.y + target_height`) with its height capped by `space_below`
when `space_below > space_above`, and otherwise sits above with its
bottom edge exactly at `position.y` and height capped by `space_above`
(the tie `space_below = space_above` places above); its width never
exceeds the configured width nor the horizontal room up to the
container's right edge. -/
theorem menuOverlay_placement (contentLayout : Limits → Size)
    (width targetHeight : ℚ) (bounds : Size) (position : Point)
    (hc : ∀ lim, (contentLayout lim).height ≤ lim.max.height ∧
      (contentLayout lim).width ≤ lim.max.width)
    (hw : 0 ≤ width) (hx : position.x ≤ bounds.width) :
    (bounds.height - (position.y + targetHeight) > position.y →
      (MenuOverlay.layoutNode contentLayout width targetHeight bounds position).y =
          position.y + targetHeight ∧
        (MenuOverlay.layoutNode contentLayout width targetHeight bounds position).height ≤
          bounds.height - (position.y + targetHeight)) ∧
    (¬(bounds.height - (position.y + targetHeight) > position.y) →
      (MenuOverlay.layoutNode contentLayout width targetHeight bounds position).y +
          (MenuOverlay.layoutNode contentLayout width targetHeight bounds position).height =
          position.y ∧
        (MenuOverlay.layoutNode contentLayout width targetHeight bounds position).height ≤
          position.y) ∧
    (MenuOverlay.layoutNode contentLayout width targetHeight bounds position).width ≤
      Min.min width (bounds.width - position.x) := by
  have hwbound : ∀ lim, (contentLayout lim).width ≤ lim.max.width := fun lim => (hc lim).2
  have hhbound : ∀ lim, (contentLayout lim).height ≤ lim.max.height := fun lim => (hc lim).1
  have hmin0 : (0 : ℚ) ≤ Min.min width (bounds.width - position.x) :=
    le_min hw (by linarith)
  by_cases hbelow : bounds.height - (position.y + targetHeight) > position.y
  · have hnode : MenuOverlay.layoutNode contentLayout width targetHeight bounds position =
        ⟨position.x, position.y + targetHeight,
          (contentLayout ((Limits.new ⟨0, 0⟩
            ⟨bounds.width - position.x,
              bounds.height - (position.y + targetHeight)⟩).width (.Fixed width))).width,
          (contentLayout ((Limits.new ⟨0, 0⟩
            ⟨bounds.width - position.x,
              bounds.height - (position.y + targetHeight)⟩).width (.Fixed width))).height⟩ := by
      simp [MenuOverlay.layoutNode, hbelow]
    have hmaxh : ((Limits.new ⟨0, 0⟩
        ⟨bounds.width - position.x,
          bounds.height - (position.y + targetHeight)⟩).width (.Fixed width)).max.height =
        bounds.height - (position.y + targetHeight) := by
      simp [Limits.new, Limits.width]
    have hmaxw : ((Limits.new ⟨0, 0⟩
        ⟨bounds.width - position.x,
          bounds.height - (position.y + targetHeight)⟩).width (.Fixed width)).max.width =
        Max.max (Min.min width (bounds.width - position.x)) 0 := by
      simp [Limits.new, Limits.width]
    refine ⟨fun _ => ⟨?_, ?_⟩, fun hn => absurd hbelow hn, ?_⟩
    · rw [hnode]
    · rw [hnode]
      exact le_trans (hhbound _) (le_of_eq hmaxh)
    · rw [hnode]
      refine le_trans (hwbound _) ?_
      rw [hmaxw]
      exact le_of_eq (max_eq_left hmin0)
  · have hnode : MenuOverlay.layoutNode contentLayout width targetHeight bounds position =
        ⟨position.x,
          position.y - (contentLayout ((Limits.new ⟨0, 0⟩
            ⟨bounds.width - position.x, position.y⟩).width (.Fixed width))).height,
          (contentLayout ((Limits.new ⟨0, 0⟩
            ⟨bounds.width - position.x, position.y⟩).width (.Fixed width))).width,
          (contentLayout ((Limits.new ⟨0, 0⟩
            ⟨bounds.width - position.x, position.y⟩).width (.Fixed width))).height⟩ := by
      simp [MenuOverlay.layoutNode, hbelow]
    have hmaxh : ((Limits.new ⟨0, 0⟩
        ⟨bounds.width - position.x, position.y⟩).width (.Fixed width)).max.height =
        position.y := by
      simp [Limits.new, Limits.width]
    have hmaxw : ((Limits.new ⟨0, 0⟩
        ⟨bounds.width - position.x, position.y⟩).width (.Fixed width)).max.width =
        Max.max (Min.min width (bounds.width - position.x)) 0 := by
      simp [Limits.new, Limits.width]
    refine ⟨fun hp => absurd hp hbelow, fun _ => ⟨?_, ?_⟩, ?_⟩
    · rw [hnode]
      show position.y - (contentLayout _).height + (contentLayout _).height = position.y
      ring
    · rw [hnode]
      exact le_trans (hhbound _) (le_of_eq hmaxh)
    · rw [hnode]
      refine le_trans (hwbound _) ?_
      rw [hmaxw]
      exact le_of_eq (max_eq_left hmin0)

/-- C5 witness: with the content filling its limits, anchor `(10, 20)`,
target height 10 and container 100×100, there is more space below, so
the list's top edge is `20 + 10` and its height is capped by
`100 - (20 + 10)`. -/
theorem menuOverlay_placement_witness :
    (MenuOverlay.layoutNode (fun lim => ⟨lim.max.width, lim.max.height⟩) 30 10
        ⟨100, 100⟩ ⟨10, 20⟩).y = 20 + 10 ∧
    (MenuOverlay.layoutNode (fun lim => ⟨lim.max.width, lim.max.height⟩) 30 10
        ⟨100, 100⟩ ⟨10, 20⟩).height ≤ 100 - (20 + 10) := by
  have h := (menuOverlay_placement (fun lim => ⟨lim.max.width, lim.max.height⟩) 30 10
      ⟨100, 100⟩ ⟨10, 20⟩ (fun lim => ⟨le_refl _, le_refl _⟩)
      (by norm_num) (by norm_num)).1 (by norm_num)
  exact h

end Iced
